import Mathlib

/-!
# Rhythm Flow — verification of the chart generator and the judgment engine

Shallow embedding of the repository's core logic:

* `src/types.ts` — the `Note`, `Judgment` and `GameStats` data model;
* `src/constants.ts` — `JUDGMENT_WINDOWS` and `SCORES`;
* `src/components/GameCanvas.tsx` — `handleInput` (press judgment), the
  per-frame miss sweep of `render` (modelled as `tick`), the transport clock
  (`playAudio` / `pauseGame` / `resumeGame`), and the result screen
  (accuracy and grade);
* `src/services/audioAnalyzer.ts` — `analyzeAudio`, the onset-detection /
  chart-generation algorithm.

Times and scores are exact rationals / naturals; the analyzer's RMS values
(`Math.sqrt` in the source) are real numbers.
-/

namespace RhythmFlow

/-- `Judgment` enum of src/types.ts. -/
inductive Judgment where
  | PERFECT
  | GOOD
  | MISS
  | NONE
deriving DecidableEq, Repr

/-- `Note` of src/types.ts: `lane` is `LaneIndex = 0 | 1 | 2 | 3`. -/
structure Note where
  id : String
  time : ℚ
  lane : Fin 4
  hit : Bool
  missed : Bool
  visible : Bool
deriving DecidableEq, Repr, Inhabited

/-- `JUDGMENT_WINDOWS` of src/constants.ts (seconds); the source map has no
`NONE` key, which is mapped to 0 here and never consulted. -/
def JUDGMENT_WINDOWS : Judgment → ℚ
  | .PERFECT => 8/100
  | .GOOD => 15/100
  | .MISS => 25/100
  | .NONE => 0

/-- `SCORES` of src/constants.ts; the source map has no `NONE` key. -/
def SCORES : Judgment → ℕ
  | .PERFECT => 300
  | .GOOD => 100
  | .MISS => 0
  | .NONE => 0

/-- `GameStats` of src/types.ts. -/
structure GameStats where
  score : ℕ
  combo : ℕ
  maxCombo : ℕ
  perfect : ℕ
  good : ℕ
  miss : ℕ
deriving DecidableEq, Repr

/-- The initial stats object of GameCanvas.tsx (lines 37-44). -/
def zeroStats : GameStats := ⟨0, 0, 0, 0, 0, 0⟩

/-- The engine's mutable state: `notesRef.current` and the `stats` state. -/
structure EngineState where
  notes : List Note
  stats : GameStats
deriving DecidableEq, Repr

/-- `Math.abs` on rationals, as the source computes `Math.abs(n.time - t)`:
the negative branch negates, otherwise the value is returned unchanged. -/
def ratAbs (x : ℚ) : ℚ := if x < 0 then -x else x

theorem ratAbs_eq_abs (x : ℚ) : ratAbs x = |x| := by
  rcases lt_or_le x 0 with h | h
  · rw [ratAbs, if_pos h, abs_of_neg h]
  · rw [ratAbs, if_neg (not_lt.mpr h), abs_of_nonneg h]

/-- The `findIndex` predicate of `handleInput` (GameCanvas.tsx lines 167-172):
an unresolved note of the pressed lane within the outer MISS window. -/
def hitCandidate (lane : Fin 4) (currentTime : ℚ) (n : Note) : Bool :=
  n.lane == lane && !n.hit && !n.missed &&
    decide (ratAbs (n.time - currentTime) ≤ JUDGMENT_WINDOWS Judgment.MISS)

/-- Judgment tiering of `handleInput` (GameCanvas.tsx lines 178-180). -/
def judgeDiff (diff : ℚ) : Judgment :=
  if diff ≤ JUDGMENT_WINDOWS Judgment.PERFECT then Judgment.PERFECT
  else if diff ≤ JUDGMENT_WINDOWS Judgment.GOOD then Judgment.GOOD
  else Judgment.MISS

/-- The `setStats` update of `handleInput` (GameCanvas.tsx lines 186-197). -/
def scoreJudgment (judgment : Judgment) (prev : GameStats) : GameStats :=
  let newCombo := if judgment = Judgment.MISS then 0 else prev.combo + 1
  { score := prev.score + SCORES judgment +
      (if newCombo > 10 then newCombo / 10 * 10 else 0),
    combo := newCombo,
    maxCombo := max prev.maxCombo newCombo,
    perfect := if judgment = Judgment.PERFECT then prev.perfect + 1 else prev.perfect,
    good := if judgment = Judgment.GOOD then prev.good + 1 else prev.good,
    miss := if judgment = Judgment.MISS then prev.miss + 1 else prev.miss }

/-- `handleInput` of GameCanvas.tsx (lines 152-205), at a transport time
`currentTime`, restricted to its game-state effect (the `Playing` guard and
the visual flash are handled by the caller / are presentation-only). -/
def handleInput (lane : Fin 4) (currentTime : ℚ) (s : EngineState) : EngineState :=
  match s.notes.findIdx? (hitCandidate lane currentTime) with
  | none => s
  | some targetNoteIndex =>
    let note := s.notes.getD targetNoteIndex default
    let diff := ratAbs (note.time - currentTime)
    let judgment := judgeDiff diff
    { notes := s.notes.set targetNoteIndex { note with hit := true },
      stats := scoreJudgment judgment s.stats }

/-- The miss sweep of the render loop (GameCanvas.tsx lines 379-390): for each
note in order, a hit note is skipped; an unresolved note whose miss window has
elapsed is marked missed, the combo is reset and the miss counter bumped. -/
def tickNotes (now : ℚ) : List Note → GameStats → List Note × GameStats
  | [], stats => ([], stats)
  | note :: rest, stats =>
    if note.hit then
      let r := tickNotes now rest stats
      (note :: r.1, r.2)
    else if ¬note.missed ∧ note.time + JUDGMENT_WINDOWS Judgment.MISS < now then
      let r := tickNotes now rest { stats with combo := 0, miss := stats.miss + 1 }
      ({ note with missed := true } :: r.1, r.2)
    else
      let r := tickNotes now rest stats
      (note :: r.1, r.2)

/-- One frame of the miss sweep over the whole engine state. -/
def tick (now : ℚ) (s : EngineState) : EngineState :=
  ⟨(tickNotes now s.notes s.stats).1, (tickNotes now s.notes s.stats).2⟩

/-- A note the sweep at time `now` newly marks as missed. -/
def newlyMissed (now : ℚ) (n : Note) : Bool :=
  !n.hit && !n.missed && decide (n.time + JUDGMENT_WINDOWS Judgment.MISS < now)

/-- The sweep's effect on a single note. -/
def missSweep (now : ℚ) (n : Note) : Note :=
  if newlyMissed now n then { n with missed := true } else n

theorem newlyMissed_eq_false_of_hit (now : ℚ) (n : Note) (h : n.hit = true) :
    newlyMissed now n = false := by
  simp [newlyMissed, h]

theorem newlyMissed_eq_true_of (now : ℚ) (n : Note) (hh : ¬n.hit = true)
    (hc : ¬n.missed = true ∧ n.time + JUDGMENT_WINDOWS Judgment.MISS < now) :
    newlyMissed now n = true := by
  simp only [Bool.not_eq_true] at hh hc
  simp [newlyMissed, hh, hc.1, hc.2]

theorem newlyMissed_eq_false_of (now : ℚ) (n : Note)
    (hc : ¬(¬n.missed = true ∧ n.time + JUDGMENT_WINDOWS Judgment.MISS < now)) :
    newlyMissed now n = false := by
  rcases Decidable.not_and_iff_or_not.mp hc with h | h
  · simp only [Bool.not_eq_true, not_not] at h
    simp [newlyMissed, h]
  · simp [newlyMissed, h]

theorem tickNotes_fst (now : ℚ) (l : List Note) (stats : GameStats) :
    (tickNotes now l stats).1 = l.map (missSweep now) := by
  induction l generalizing stats with
  | nil => rfl
  | cons note rest ih =>
    by_cases hh : note.hit = true
    · have hm : missSweep now note = note := by
        simp [missSweep, newlyMissed_eq_false_of_hit now note hh]
      simp [tickNotes, hh, hm, ih]
    · by_cases hc : ¬note.missed = true ∧ note.time + JUDGMENT_WINDOWS Judgment.MISS < now
      · have hm : missSweep now note = { note with missed := true } := by
          simp [missSweep, newlyMissed_eq_true_of now note hh hc]
        simp [tickNotes, hh, hc, hm, ih]
      · have hm : missSweep now note = note := by
          simp [missSweep, newlyMissed_eq_false_of now note hc]
        simp only [Bool.not_eq_true] at hc
        simp [tickNotes, hh, hc, hm, ih]

theorem tickNotes_snd (now : ℚ) (l : List Note) (stats : GameStats) :
    (tickNotes now l stats).2 =
      { stats with
        combo := if l.countP (newlyMissed now) = 0 then stats.combo else 0,
        miss := stats.miss + l.countP (newlyMissed now) } := by
  induction l generalizing stats with
  | nil => simp [tickNotes]
  | cons note rest ih =>
    by_cases hh : note.hit = true
    · have hm := newlyMissed_eq_false_of_hit now note hh
      simp [tickNotes, hh, ih, List.countP_cons, hm]
    · by_cases hc : ¬note.missed = true ∧ note.time + JUDGMENT_WINDOWS Judgment.MISS < now
      · have hm := newlyMissed_eq_true_of now note hh hc
        simp [tickNotes, hh, hc, ih, List.countP_cons, hm, Nat.add_comm,
          Nat.add_assoc, Nat.add_left_comm]
      · have hm := newlyMissed_eq_false_of now note hc
        simp only [Bool.not_eq_true] at hc
        simp [tickNotes, hh, hc, ih, List.countP_cons, hm]

/-! ## Transport clock (GameCanvas.tsx) -/

/-- The transport-clock refs and flags of GameCanvas.tsx: `startTimeRef`,
`pauseTimeRef`, `isPlaying`, `isPaused`. `AudioContext.currentTime` (the
wall clock) is passed to each operation explicitly. -/
structure Transport where
  startTime : ℚ
  pauseTime : ℚ
  isPlaying : Bool
  isPaused : Bool
deriving DecidableEq, Repr

/-- The transport's elapsed time as the render loop computes it
(GameCanvas.tsx lines 369-374): live clock while playing, the frozen
`pauseTimeRef` otherwise. -/
def elapsed (tr : Transport) (ctxNow : ℚ) : ℚ :=
  if tr.isPlaying then ctxNow - tr.startTime else tr.pauseTime

/-- Clock effect of `playAudio(offset)` (GameCanvas.tsx lines 62-108):
re-anchors `startTimeRef.current = ctx.currentTime - offset`, enters playing. -/
def playAudio (offset ctxNow : ℚ) (tr : Transport) : Transport :=
  { tr with startTime := ctxNow - offset, isPlaying := true, isPaused := false }

/-- `pauseGame` (GameCanvas.tsx lines 110-119): freezes
`pauseTimeRef.current = ctx.currentTime - startTimeRef.current` and leaves
playing; a no-op unless playing. -/
def pauseGame (ctxNow : ℚ) (tr : Transport) : Transport :=
  if tr.isPlaying then
    { tr with pauseTime := ctxNow - tr.startTime, isPlaying := false, isPaused := true }
  else tr

/-- `resumeGame` (GameCanvas.tsx lines 121-123): `playAudio(pauseTimeRef.current)`. -/
def resumeGame (ctxNow : ℚ) (tr : Transport) : Transport :=
  playAudio tr.pauseTime ctxNow tr

/-! ## Result screen (GameCanvas.tsx lines 431-440) -/

/-- The result screen's accuracy (GameCanvas.tsx line 433):
`Math.round(score / (totalNotes * 300) * 100) || 0`. With no notes the
JavaScript quotient is `NaN`, `Math.round(NaN)` is `NaN`, and `NaN || 0`
yields 0; the guard models that defined default. -/
def accuracy (score totalNotes : ℕ) : ℤ :=
  if totalNotes = 0 then 0
  else round ((score : ℚ) / ((totalNotes : ℚ) * 300) * 100)

/-- The result screen's letter grade (GameCanvas.tsx lines 435-440). -/
def grade (acc : ℤ) : String :=
  if acc ≥ 95 then "S"
  else if acc ≥ 90 then "A"
  else if acc ≥ 80 then "B"
  else if acc ≥ 70 then "C"
  else if acc ≥ 60 then "D"
  else "F"

/-! ## Chart generator (src/services/audioAnalyzer.ts) -/

/-- Analysis chunk size in samples (`SIZE`, audioAnalyzer.ts line 12). -/
def SIZE : ℕ := 2048

/-- Trailing-energy history length (`HISTORY_SIZE`, line 17). -/
def HISTORY_SIZE : ℕ := 43

/-- Dynamic-threshold multiplier (`MULTIPLIER`, line 20). -/
noncomputable def MULTIPLIER : ℝ := 14/10

/-- Silence floor (`MIN_THRESHOLD`, line 21). -/
noncomputable def MIN_THRESHOLD : ℝ := 5/100

/-- Debounce gap in seconds (`MIN_NOTE_GAP`, line 22). -/
def MIN_NOTE_GAP : ℚ := 15/100

/-- The deterministic lane-assignment pattern (audioAnalyzer.ts lines 60-81):
`beatIndex` is the accepted onset's ordinal, `time` its onset time. Each
branch's value is reduced into `Fin 4`; on the values the source produces
(non-negative, below 4) the reduction is the identity. -/
def laneFor (beatIndex : ℕ) (time : ℚ) : Fin 4 :=
  let patternType := beatIndex / 8 % 4
  let subIndex := beatIndex % 8
  if patternType = 0 then
    ⟨subIndex % 4, Nat.mod_lt _ (by norm_num)⟩
  else if patternType = 1 then
    let base := if beatIndex % 16 < 8 then 0 else 2
    ⟨(base + subIndex % 2) % 4, Nat.mod_lt _ (by norm_num)⟩
  else if patternType = 2 then
    ⟨3 - subIndex % 4, Nat.lt_succ_of_le (Nat.sub_le 3 _)⟩
  else
    ⟨(Int.tmod ⌊time * 100⌋ 4).toNat % 4, Nat.mod_lt _ (by norm_num)⟩

/-- The chunk-loop state of `analyzeAudio`: `energyHistory`, `lastNoteTime`
(initialized 0, line 24) and the accumulated `notes`. -/
structure AnalyzeState where
  energyHistory : List ℝ
  lastNoteTime : ℚ
  notes : List Note

open scoped Classical in
/-- One iteration of `analyzeAudio`'s chunk loop (audioAnalyzer.ts lines
27-99): the chunk's RMS energy, the trailing local average (computed before
the push), the history push/shift, onset detection against the dynamic
threshold and the silence floor, the debounce against `lastNoteTime`, and
note emission. `k` is the chunk ordinal, `i = k * SIZE` the sample index. -/
noncomputable def analyzeChunk (samples : List ℝ) (sampleRate : ℚ)
    (st : AnalyzeState) (k : ℕ) : AnalyzeState :=
  let i := k * SIZE
  let sum := (List.range SIZE).foldl (fun s j => s + samples.getD (i + j) 0 ^ 2) 0
  let rms := Real.sqrt (sum / (SIZE : ℝ))
  let localAverage :=
    if st.energyHistory.length > 0 then
      st.energyHistory.sum / (st.energyHistory.length : ℝ)
    else 0
  let pushed := st.energyHistory ++ [rms]
  let energyHistory := if pushed.length > HISTORY_SIZE then pushed.tail else pushed
  if rms > localAverage * MULTIPLIER ∧ rms > MIN_THRESHOLD then
    let time := (i : ℚ) / sampleRate
    if time - st.lastNoteTime > MIN_NOTE_GAP then
      let beatIndex := st.notes.length
      { energyHistory := energyHistory,
        lastNoteTime := time,
        notes := st.notes ++
          [{ id := "note-" ++ toString beatIndex, time := time,
             lane := laneFor beatIndex time,
             hit := false, missed := false, visible := true }] }
    else { st with energyHistory := energyHistory }
  else { st with energyHistory := energyHistory }

/-- Iteration count of the chunk loop
`for (let i = 0; i < data.length - SIZE; i += SIZE)`: the multiples of `SIZE`
strictly below `data.length - SIZE`. Truncated subtraction matches the loop
never running on data of at most one chunk. -/
def numChunks (dataLength : ℕ) : ℕ := (dataLength - SIZE + (SIZE - 1)) / SIZE

/-- `analyzeAudio` of src/services/audioAnalyzer.ts (lines 7-102), from the
decoded left-channel data (normalized samples) and the sample rate to the
generated chart. Decoding (`decodeAudioData`) is the platform's concern and
the returned audio buffer is not part of the chart. -/
noncomputable def analyzeAudio (samples : List ℝ) (sampleRate : ℚ) : List Note :=
  ((List.range (numChunks samples.length)).foldl
    (analyzeChunk samples sampleRate) ⟨[], 0, []⟩).notes

/-! ## Chart generator invariants -/

/-- Loop invariant of the chunk loop: the debounce baseline `lastNoteTime` is
non-negative and bounds every accepted note's time; consecutive accepted notes
keep the global `MIN_NOTE_GAP`; and every accepted time exceeds the gap. -/
def ChartInv (st : AnalyzeState) : Prop :=
  0 ≤ st.lastNoteTime ∧
  (∀ n ∈ st.notes, n.time ≤ st.lastNoteTime) ∧
  st.notes.Chain' (fun a b => a.time + MIN_NOTE_GAP ≤ b.time) ∧
  (∀ n ∈ st.notes, MIN_NOTE_GAP < n.time)

theorem ChartInv.append {last time : ℚ} {notes : List Note} {n : Note}
    (eh : List ℝ)
    (h0 : 0 ≤ last) (hle : ∀ m ∈ notes, m.time ≤ last)
    (hchain : notes.Chain' (fun a b => a.time + MIN_NOTE_GAP ≤ b.time))
    (hgap : ∀ m ∈ notes, MIN_NOTE_GAP < m.time)
    (hn : n.time = time) (hlt : last + MIN_NOTE_GAP < time) :
    ChartInv ⟨eh, time, notes ++ [n]⟩ := by
  have hgap0 : (0 : ℚ) < MIN_NOTE_GAP := by norm_num [MIN_NOTE_GAP]
  refine ⟨by linarith, ?_, ?_, ?_⟩
  · intro m hm
    rcases List.mem_append.mp hm with hm | hm
    · have := hle m hm
      simp only
      linarith
    · simp only [List.mem_singleton] at hm
      simp [hm, hn]
  · refine List.chain'_append.mpr ⟨hchain, List.chain'_singleton _, ?_⟩
    intro x hx y hy
    simp only [List.head?_cons, Option.mem_def, Option.some.injEq] at hy
    have := hle x (List.mem_of_mem_getLast? hx)
    subst hy
    rw [hn]
    linarith
  · intro m hm
    rcases List.mem_append.mp hm with hm | hm
    · exact hgap m hm
    · simp only [List.mem_singleton] at hm
      rw [hm, hn]
      linarith

theorem analyzeChunk_inv (samples : List ℝ) (sampleRate : ℚ) (st : AnalyzeState)
    (k : ℕ) (h : ChartInv st) : ChartInv (analyzeChunk samples sampleRate st k) := by
  obtain ⟨h0, hle, hchain, hgap⟩ := h
  simp only [analyzeChunk]
  split_ifs <;>
    first
      | exact ⟨h0, hle, hchain, hgap⟩
      | exact ChartInv.append _ h0 hle hchain hgap rfl (by linarith)

theorem foldl_analyzeChunk_inv (samples : List ℝ) (sampleRate : ℚ)
    (ks : List ℕ) (st : AnalyzeState) (h : ChartInv st) :
    ChartInv (ks.foldl (analyzeChunk samples sampleRate) st) := by
  induction ks generalizing st with
  | nil => exact h
  | cons k ks ih => exact ih _ (analyzeChunk_inv samples sampleRate st k h)

theorem analyzeAudio_inv (samples : List ℝ) (sampleRate : ℚ) :
    ∃ st : AnalyzeState, st.notes = analyzeAudio samples sampleRate ∧ ChartInv st := by
  refine ⟨_, rfl, foldl_analyzeChunk_inv samples sampleRate _ ⟨[], 0, []⟩ ?_⟩
  refine ⟨le_refl 0, ?_, List.chain'_nil, ?_⟩ <;> intro n hn <;> cases hn

/-- C6: for every input sample sequence and sample rate, consecutive notes of
the generated chart are at least `MIN_NOTE_GAP` apart in the global sequence,
regardless of lane; in particular note times are non-decreasing. -/
theorem chart_spacing (samples : List ℝ) (sampleRate : ℚ) :
    (analyzeAudio samples sampleRate).Chain'
      (fun a b => a.time + MIN_NOTE_GAP ≤ b.time) ∧
    (analyzeAudio samples sampleRate).Chain' (fun a b => a.time ≤ b.time) := by
  obtain ⟨st, hst, -, -, hchain, -⟩ := analyzeAudio_inv samples sampleRate
  rw [← hst]
  have hgap0 : (0 : ℚ) < MIN_NOTE_GAP := by norm_num [MIN_NOTE_GAP]
  exact ⟨hchain, hchain.imp fun a b hab => by linarith⟩

/-- C7: chart generation is deterministic: two runs of `analyzeAudio` on the
same sample sequence and sample rate produce the identical note sequence (the
shallow embedding is a pure function; no step draws randomness). -/
theorem analyze_deterministic (s₁ s₂ : List ℝ) (r₁ r₂ : ℚ)
    (hs : s₁ = s₂) (hr : r₁ = r₂) :
    analyzeAudio s₁ r₁ = analyzeAudio s₂ r₂ := by rw [hs, hr]

/-- C7 witness: determinism instantiated on a concrete one-sample input. -/
theorem analyze_deterministic_witness :
    analyzeAudio [0] 44100 = analyzeAudio [0] 44100 :=
  analyze_deterministic [0] [0] 44100 44100 rfl rfl

/-- C10: every generated note, the very first included, has time strictly
greater than `MIN_NOTE_GAP`: the debounce compares each candidate onset
against a `lastNoteTime` initialized to 0, so an onset within the first
0.15 s of the track is suppressed. -/
theorem first_note_after_gap (samples : List ℝ) (sampleRate : ℚ) :
    (analyzeAudio samples sampleRate).Forall (fun n => MIN_NOTE_GAP < n.time) := by
  obtain ⟨st, hst, -, -, -, hgap⟩ := analyzeAudio_inv samples sampleRate
  rw [← hst, List.forall_iff_forall_mem]
  exact hgap

/-! ## Silent input -/

theorem silent_getD (samples : List ℝ) (h : ∀ x ∈ samples, x = 0) (m : ℕ) :
    samples.getD m 0 = 0 := by
  rw [List.getD_eq_getElem?_getD]
  cases hx : samples[m]? with
  | none => rfl
  | some x => simpa using h x (List.getElem?_mem hx)

theorem silent_sum (samples : List ℝ) (h : ∀ x ∈ samples, x = 0) (i : ℕ)
    (l : List ℕ) (c : ℝ) :
    l.foldl (fun s j => s + samples.getD (i + j) 0 ^ 2) c = c := by
  induction l generalizing c with
  | nil => rfl
  | cons a l ih =>
    rw [List.foldl_cons, silent_getD samples h]
    simpa using ih c

theorem analyzeChunk_silent (samples : List ℝ) (sampleRate : ℚ)
    (st : AnalyzeState) (k : ℕ) (h : ∀ x ∈ samples, x = 0) :
    (analyzeChunk samples sampleRate st k).notes = st.notes := by
  simp only [analyzeChunk]
  rw [silent_sum samples h]
  rw [if_neg]
  rintro ⟨-, h2⟩
  rw [zero_div, Real.sqrt_zero] at h2
  norm_num [MIN_THRESHOLD] at h2

theorem analyzeAudio_silent (samples : List ℝ) (sampleRate : ℚ)
    (h : ∀ x ∈ samples, x = 0) : analyzeAudio samples sampleRate = [] := by
  unfold analyzeAudio
  generalize List.range (numChunks samples.length) = ks
  suffices H : ∀ st : AnalyzeState,
      (ks.foldl (analyzeChunk samples sampleRate) st).notes = st.notes by
    exact H ⟨[], 0, []⟩
  induction ks with
  | nil => intro st; rfl
  | cons k ks ih =>
    intro st
    rw [List.foldl_cons, ih]
    exact analyzeChunk_silent samples sampleRate st k h

/-! ## Judgment tier characterization -/

theorem judgeDiff_perfect_iff (d : ℚ) :
    judgeDiff d = Judgment.PERFECT ↔ d ≤ 8/100 := by
  constructor
  · intro h
    by_cases h1 : d ≤ 8/100
    · exact h1
    · by_cases h2 : d ≤ 15/100 <;> simp [judgeDiff, JUDGMENT_WINDOWS, h1, h2] at h
  · intro h1
    simp [judgeDiff, JUDGMENT_WINDOWS, h1]

theorem judgeDiff_good_iff (d : ℚ) :
    judgeDiff d = Judgment.GOOD ↔ 8/100 < d ∧ d ≤ 15/100 := by
  constructor
  · intro h
    by_cases h1 : d ≤ 8/100
    · simp [judgeDiff, JUDGMENT_WINDOWS, h1] at h
    · by_cases h2 : d ≤ 15/100
      · exact ⟨lt_of_not_le h1, h2⟩
      · simp [judgeDiff, JUDGMENT_WINDOWS, h1, h2] at h
  · rintro ⟨ha, hb⟩
    have h1 : ¬d ≤ 8/100 := not_le.mpr ha
    simp [judgeDiff, JUDGMENT_WINDOWS, h1, hb]

theorem judgeDiff_miss_iff (d : ℚ) :
    judgeDiff d = Judgment.MISS ↔ 15/100 < d := by
  constructor
  · intro h
    by_cases h1 : d ≤ 8/100
    · simp [judgeDiff, JUDGMENT_WINDOWS, h1] at h
    · by_cases h2 : d ≤ 15/100
      · simp [judgeDiff, JUDGMENT_WINDOWS, h1, h2] at h
      · exact lt_of_not_le h2
  · intro ha
    have h1 : ¬d ≤ 8/100 := not_le.mpr (by linarith)
    have h2 : ¬d ≤ 15/100 := not_le.mpr ha
    simp [judgeDiff, JUDGMENT_WINDOWS, h1, h2]

/-! ## handleInput characterization -/

theorem findIdx?_spec {α : Type} {p : α → Bool} {l : List α} {i : ℕ} {n : α}
    (hi : l.findIdx? p = some i) (hn : l[i]? = some n) :
    p n = true ∧ ∀ j, j < i → ∀ m, l[j]? = some m → p m = false := by
  obtain ⟨hlt, hp, hprev⟩ := List.findIdx?_eq_some_iff_getElem.mp hi
  have hne : l[i] = n := by
    rw [List.getElem?_eq_getElem hlt] at hn
    exact Option.some.inj hn
  constructor
  · rw [← hne]
    exact hp
  · intro j hj m hm
    have hjlt : j < l.length := Nat.lt_trans hj hlt
    have hme : l[j] = m := by
      rw [List.getElem?_eq_getElem hjlt] at hm
      exact Option.some.inj hm
    rw [← hme]
    simpa using hprev j hj

theorem handleInput_eq_of_found {s : EngineState} {lane : Fin 4} {t : ℚ}
    {i : ℕ} {n : Note}
    (hi : s.notes.findIdx? (hitCandidate lane t) = some i)
    (hn : s.notes[i]? = some n) :
    handleInput lane t s =
      { notes := s.notes.set i { n with hit := true },
        stats := scoreJudgment (judgeDiff (ratAbs (n.time - t))) s.stats } := by
  unfold handleInput
  rw [hi]
  simp only [List.getD_eq_getElem?_getD, hn, Option.getD_some]

theorem handleInput_eq_of_none {s : EngineState} {lane : Fin 4} {t : ℚ}
    (h : s.notes.findIdx? (hitCandidate lane t) = none) :
    handleInput lane t s = s := by
  unfold handleInput
  rw [h]

/-- C1: on a press at transport time `t` while playing, the note `handleInput`
selects for judgment, with target time `T = n.time`, is tiered PERFECT iff
`|T - t| ≤ 0.08`, GOOD iff `0.08 < |T - t| ≤ 0.15`, and a belated
MISS-on-press iff `0.15 < |T - t| ≤ 0.25`; a press with no unresolved note
within 0.25 s in that lane changes no note state and no stats. -/
theorem judgment_tiering (s : EngineState) (lane : Fin 4) (t : ℚ) :
    (∀ i n, s.notes.findIdx? (hitCandidate lane t) = some i →
      s.notes[i]? = some n →
        ((judgeDiff |n.time - t| = Judgment.PERFECT ↔ |n.time - t| ≤ 8/100) ∧
         (judgeDiff |n.time - t| = Judgment.GOOD ↔
            8/100 < |n.time - t| ∧ |n.time - t| ≤ 15/100) ∧
         (judgeDiff |n.time - t| = Judgment.MISS ↔
            15/100 < |n.time - t| ∧ |n.time - t| ≤ 25/100))) ∧
    ((∀ n ∈ s.notes, ¬(n.lane = lane ∧ n.hit = false ∧ n.missed = false ∧
        |n.time - t| ≤ 25/100)) → handleInput lane t s = s) := by
  constructor
  · intro i n hi hn
    have hcand := (findIdx?_spec hi hn).1
    have hwin : |n.time - t| ≤ 25/100 := by
      simp only [hitCandidate, Bool.and_eq_true, decide_eq_true_eq,
        JUDGMENT_WINDOWS] at hcand
      rw [← ratAbs_eq_abs]
      exact hcand.2
    refine ⟨judgeDiff_perfect_iff _, judgeDiff_good_iff _, ?_⟩
    rw [judgeDiff_miss_iff]
    exact ⟨fun h => ⟨h, hwin⟩, fun h => h.1⟩
  · intro hno
    apply handleInput_eq_of_none
    rw [List.findIdx?_eq_none_iff]
    intro x hx
    cases hxc : hitCandidate lane t x with
    | false => rfl
    | true =>
      exfalso
      simp only [hitCandidate, Bool.and_eq_true, beq_iff_eq, Bool.not_eq_true',
        decide_eq_true_eq, JUDGMENT_WINDOWS] at hxc
      exact hno x hx
        ⟨hxc.1.1.1, hxc.1.1.2, hxc.1.2, by rw [← ratAbs_eq_abs]; exact hxc.2⟩

/-! ## Tick characterization -/

theorem tick_notes_eq (now : ℚ) (s : EngineState) :
    (tick now s).notes = s.notes.map (missSweep now) := by
  simp [tick, tickNotes_fst]

theorem tick_stats_eq (now : ℚ) (s : EngineState) :
    (tick now s).stats =
      { s.stats with
        combo := if s.notes.countP (newlyMissed now) = 0 then s.stats.combo else 0,
        miss := s.stats.miss + s.notes.countP (newlyMissed now) } := by
  simp [tick, tickNotes_snd]

/-- C2: the first sweep whose time `now` exceeds an unresolved note's miss
window marks exactly that note missed, resets the combo to 0, and grows the
miss counter by the number of notes newly missed in that sweep, this note
counting exactly once among them; afterwards the note is resolved, so any
later sweep (any `now'`) leaves it unchanged and never counts it again. -/
theorem tick_miss_once (s : EngineState) (j : ℕ) (n : Note) (now now' : ℚ)
    (hn : s.notes[j]? = some n) (hhit : n.hit = false) (hmiss : n.missed = false)
    (hlate : n.time + JUDGMENT_WINDOWS Judgment.MISS < now) :
    (tick now s).notes[j]? = some { n with missed := true } ∧
    (tick now s).stats.combo = 0 ∧
    (tick now s).stats.miss = s.stats.miss + s.notes.countP (newlyMissed now) ∧
    newlyMissed now n = true ∧
    (tick now' (tick now s)).notes[j]? = some { n with missed := true } ∧
    newlyMissed now' { n with missed := true } = false := by
  have hnm : newlyMissed now n = true := by
    simp [newlyMissed, hhit, hmiss, hlate]
  have h1 : (tick now s).notes[j]? = some { n with missed := true } := by
    rw [tick_notes_eq, List.getElem?_map, hn]
    simp [missSweep, hnm]
  refine ⟨h1, ?_, ?_, hnm, ?_, ?_⟩
  · rw [tick_stats_eq]
    have hpos : s.notes.countP (newlyMissed now) ≠ 0 := by
      have := List.countP_pos_iff.mpr ⟨n, List.getElem?_mem hn, hnm⟩
      omega
    simp [hpos]
  · rw [tick_stats_eq]
  · rw [tick_notes_eq, List.getElem?_map, h1]
    simp [missSweep, newlyMissed]
  · simp [newlyMissed]

/-- A one-note demo chart: the spec's note at 5.0 s in lane 0. -/
def demoNote : Note :=
  { id := "note-0", time := 5, lane := 0, hit := false, missed := false,
    visible := true }

/-- The engine state right after loading the demo chart. -/
def demoState : EngineState := ⟨[demoNote], zeroStats⟩

/-- C2 witness: the spec's scenario — the unresolved note at 5.0 s swept at
5.26 s is missed once, and a second sweep at 6.0 s leaves it alone. -/
theorem tick_miss_once_witness :
    (tick (526/100) demoState).notes[0]? = some { demoNote with missed := true } ∧
    (tick (526/100) demoState).stats.combo = 0 ∧
    (tick (526/100) demoState).stats.miss =
      demoState.stats.miss + demoState.notes.countP (newlyMissed (526/100)) ∧
    newlyMissed (526/100) demoNote = true ∧
    (tick 6 (tick (526/100) demoState)).notes[0]? =
      some { demoNote with missed := true } ∧
    newlyMissed 6 { demoNote with missed := true } = false :=
  tick_miss_once demoState 0 demoNote (526/100) 6 rfl rfl rfl
    (by norm_num [demoNote, JUDGMENT_WINDOWS])

/-! ## Note-flag invariants -/

/-- A pristine chart copy: every runtime flag false, as the analyzer emits
notes and as a restart's deep copy (GameCanvas.tsx lines 28 and 131) restores
them. -/
def Fresh (chart : List Note) : Prop :=
  ∀ n ∈ chart, n.hit = false ∧ n.missed = false

/-- Engine states reachable from loading a chart: presses (`handleInput`),
sweep frames (`tick`), and restarts (GameCanvas.tsx lines 125-148, which
deep-reset the notes to the pristine chart and zero the stats). -/
inductive Reachable : EngineState → Prop where
  | load (chart : List Note) (h : Fresh chart) : Reachable ⟨chart, zeroStats⟩
  | press (lane : Fin 4) (t : ℚ) (s : EngineState) :
      Reachable s → Reachable (handleInput lane t s)
  | frame (now : ℚ) (s : EngineState) :
      Reachable s → Reachable (tick now s)
  | restart (chart : List Note) (h : Fresh chart) (s : EngineState) :
      Reachable s → Reachable ⟨chart, zeroStats⟩

theorem mem_handleInput_notes {s : EngineState} {lane : Fin 4} {t : ℚ} {n : Note}
    (hn : n ∈ (handleInput lane t s).notes) :
    n ∈ s.notes ∨
      ∃ m ∈ s.notes, hitCandidate lane t m = true ∧ n = { m with hit := true } := by
  cases hfi : s.notes.findIdx? (hitCandidate lane t) with
  | none =>
    rw [handleInput_eq_of_none hfi] at hn
    exact Or.inl hn
  | some i =>
    obtain ⟨hlt, -, -⟩ := List.findIdx?_eq_some_iff_getElem.mp hfi
    have hgi : s.notes[i]? = some s.notes[i] := List.getElem?_eq_getElem hlt
    rw [handleInput_eq_of_found hfi hgi] at hn
    rcases List.mem_or_eq_of_mem_set hn with h | h
    · exact Or.inl h
    · exact Or.inr ⟨s.notes[i], List.getElem_mem hlt, (findIdx?_spec hfi hgi).1, h⟩

theorem reachable_exclusive {s : EngineState} (h : Reachable s) :
    ∀ n ∈ s.notes, ¬(n.hit = true ∧ n.missed = true) := by
  induction h with
  | load chart hf =>
    intro n hn
    rw [(hf n hn).1]
    simp
  | press lane t s hs ih =>
    intro n hn
    rcases mem_handleInput_notes hn with hmem | ⟨m, hm, hcand, rfl⟩
    · exact ih n hmem
    · have hmm : m.missed = false := by
        simp only [hitCandidate, Bool.and_eq_true, Bool.not_eq_true'] at hcand
        exact hcand.1.2
      simp [hmm]
  | frame now s hs ih =>
    intro n hn
    rw [tick_notes_eq] at hn
    rcases List.mem_map.mp hn with ⟨m, hm, rfl⟩
    by_cases hb : newlyMissed now m = true
    · have hmh : m.hit = false := by
        simp only [newlyMissed, Bool.and_eq_true, Bool.not_eq_true'] at hb
        exact hb.1.1
      have : missSweep now m = { m with missed := true } := by
        simp [missSweep, hb]
      rw [this]
      simp [hmh]
    · simp only [Bool.not_eq_true] at hb
      have : missSweep now m = m := by
        simp [missSweep, hb]
      rw [this]
      exact ih m hm
  | restart chart hf s hs ih =>
    intro n hn
    rw [(hf n hn).1]
    simp

/-- C3: in every reachable engine state no note has both `hit` and `missed`
true; a press never changes any note's `missed` flag and only ever raises
`hit` (from false to true on the selected note); a sweep never changes any
note's `hit` flag and only ever raises `missed` — so each flag, false at
load/restart, is set at most once, `hit` only by input judgment and `missed`
only by the sweep, and neither reverts until a restart replaces the runtime
notes. -/
theorem note_resolution_exclusive (s : EngineState) (h : Reachable s) :
    (∀ n ∈ s.notes, ¬(n.hit = true ∧ n.missed = true)) ∧
    (∀ (lane : Fin 4) (t : ℚ) (j : ℕ) (n n' : Note), s.notes[j]? = some n →
        (handleInput lane t s).notes[j]? = some n' →
        n'.missed = n.missed ∧ (n.hit = true → n'.hit = true)) ∧
    (∀ (now : ℚ) (j : ℕ) (n n' : Note), s.notes[j]? = some n →
        (tick now s).notes[j]? = some n' →
        n'.hit = n.hit ∧ (n.missed = true → n'.missed = true)) := by
  refine ⟨reachable_exclusive h, ?_, ?_⟩
  · intro lane t j n n' hn hn'
    cases hfi : s.notes.findIdx? (hitCandidate lane t) with
    | none =>
      rw [handleInput_eq_of_none hfi, hn] at hn'
      obtain rfl := Option.some.inj hn'
      exact ⟨rfl, id⟩
    | some i =>
      obtain ⟨hlt, -, -⟩ := List.findIdx?_eq_some_iff_getElem.mp hfi
      have hgi : s.notes[i]? = some s.notes[i] := List.getElem?_eq_getElem hlt
      rw [handleInput_eq_of_found hfi hgi] at hn'
      simp only [List.getElem?_set] at hn'
      by_cases hij : i = j
      · subst hij
        rw [if_pos rfl, if_pos hlt] at hn'
        obtain rfl := Option.some.inj hn'
        rw [hgi] at hn
        obtain rfl := Option.some.inj hn
        exact ⟨rfl, fun _ => rfl⟩
      · rw [if_neg hij, hn] at hn'
        obtain rfl := Option.some.inj hn'
        exact ⟨rfl, id⟩
  · intro now j n n' hn hn'
    rw [tick_notes_eq, List.getElem?_map, hn, Option.map_some'] at hn'
    obtain rfl := Option.some.inj hn'
    constructor
    · by_cases hb : newlyMissed now n = true <;> simp [missSweep, hb]
    · intro hm
      have hb : newlyMissed now n = false := by
        simp [newlyMissed, hm]
      simp [missSweep, hb, hm]

/-- C3 witness: the invariant instantiated at the freshly loaded demo chart. -/
theorem note_resolution_exclusive_witness :
    (∀ n ∈ demoState.notes, ¬(n.hit = true ∧ n.missed = true)) ∧
    (∀ (lane : Fin 4) (t : ℚ) (j : ℕ) (n n' : Note), demoState.notes[j]? = some n →
        (handleInput lane t demoState).notes[j]? = some n' →
        n'.missed = n.missed ∧ (n.hit = true → n'.hit = true)) ∧
    (∀ (now : ℚ) (j : ℕ) (n n' : Note), demoState.notes[j]? = some n →
        (tick now demoState).notes[j]? = some n' →
        n'.hit = n.hit ∧ (n.missed = true → n'.missed = true)) :=
  note_resolution_exclusive demoState
    (Reachable.load [demoNote]
      (fun n hn => by rw [List.mem_singleton.mp hn]; exact ⟨rfl, rfl⟩))

/-! ## Scoring -/

/-- C4: on a judged press, a non-MISS tier increments the combo, raises
maxCombo to the max of itself and the new combo, and adds the tier base plus
the bonus `floor(newCombo/10)*10` exactly when the post-increment combo
exceeds 10; a MISS tier resets the combo to 0 and leaves the score
unchanged. -/
theorem press_scoring (s : EngineState) (lane : Fin 4) (t : ℚ) (i : ℕ) (n : Note)
    (hi : s.notes.findIdx? (hitCandidate lane t) = some i)
    (hn : s.notes[i]? = some n) :
    (judgeDiff |n.time - t| ≠ Judgment.MISS →
      (handleInput lane t s).stats.combo = s.stats.combo + 1 ∧
      (handleInput lane t s).stats.maxCombo =
        max s.stats.maxCombo (s.stats.combo + 1) ∧
      (handleInput lane t s).stats.score =
        s.stats.score + SCORES (judgeDiff |n.time - t|) +
          (if s.stats.combo + 1 > 10 then (s.stats.combo + 1) / 10 * 10 else 0)) ∧
    (judgeDiff |n.time - t| = Judgment.MISS →
      (handleInput lane t s).stats.combo = 0 ∧
      (handleInput lane t s).stats.score = s.stats.score) := by
  simp only [← ratAbs_eq_abs]
  rw [handleInput_eq_of_found hi hn]
  constructor
  · intro hne
    refine ⟨?_, ?_, ?_⟩ <;> simp [scoreJudgment, hne]
  · intro heq
    refine ⟨?_, ?_⟩ <;> simp [scoreJudgment, heq, SCORES]

/-- The spec's scoring scenario: one lane-0 note at 10 s, combo already 10,
score 0. -/
def comboState : EngineState :=
  ⟨[{ id := "note-0", time := 10, lane := 0, hit := false, missed := false,
      visible := true }],
   { score := 0, combo := 10, maxCombo := 10, perfect := 0, good := 0, miss := 0 }⟩

/-- C4 witness: from combo 10 and score 0, a PERFECT press (press exactly at
the note time) yields combo 11 and score 310 = 300 + floor(11/10)*10. -/
theorem press_scoring_witness :
    (handleInput 0 10 comboState).stats.combo = 11 ∧
    (handleInput 0 10 comboState).stats.score = 310 := by
  obtain ⟨hc, -, hs⟩ :=
    (press_scoring comboState 0 10 0
      { id := "note-0", time := 10, lane := 0, hit := false, missed := false,
        visible := true }
      (by norm_num [comboState, hitCandidate, ratAbs, JUDGMENT_WINDOWS,
        List.findIdx?])
      rfl).1
      (by norm_num [judgeDiff, JUDGMENT_WINDOWS]; decide)
  refine ⟨?_, ?_⟩
  · rw [hc]
    norm_num [comboState]
  · rw [hs]
    norm_num [comboState, judgeDiff, JUDGMENT_WINDOWS, SCORES]

/-! ## Transport continuity -/

/-- C5: pausing freezes the elapsed transport time, and resuming re-anchors
the clock at the frozen offset, so the elapsed value observed right after
resume equals the elapsed value at the moment of pause — regardless of how
much audio-context time passed while paused. -/
theorem pause_resume_elapsed (tr : Transport) (tPause tResume : ℚ)
    (h : tr.isPlaying = true) :
    (∀ u : ℚ, elapsed (pauseGame tPause tr) u = elapsed tr tPause) ∧
    elapsed (resumeGame tResume (pauseGame tPause tr)) tResume
      = elapsed tr tPause := by
  constructor
  · intro u
    simp [elapsed, pauseGame, h]
  · simp [elapsed, pauseGame, resumeGame, playAudio, h]

/-- A transport that started playing at audio-context time 2 s. -/
def playingDemo : Transport := ⟨2, 0, true, false⟩

/-- C5 witness: pause at context time 14.3 (elapsed 12.3), resume 5 s later at
context time 19.3: the elapsed value is preserved. -/
theorem pause_resume_elapsed_witness :
    (∀ u : ℚ, elapsed (pauseGame (143/10) playingDemo) u
        = elapsed playingDemo (143/10)) ∧
    elapsed (resumeGame (193/10) (pauseGame (143/10) playingDemo)) (193/10)
      = elapsed playingDemo (143/10) :=
  pause_resume_elapsed playingDemo (143/10) (193/10) rfl

/-! ## Note selection on press -/

/-- An unresolved lane-0 note at 10.00 s. -/
def closeNoteA : Note :=
  { id := "note-0", time := 10, lane := 0, hit := false, missed := false,
    visible := true }

/-- An unresolved lane-0 note at 10.20 s (a legal chart gap of 0.20 s). -/
def closeNoteB : Note :=
  { id := "note-1", time := 51/5, lane := 0, hit := false, missed := false,
    visible := true }

/-- A playing state with the two lane-0 notes loaded. -/
def closePair : EngineState := ⟨[closeNoteA, closeNoteB], zeroStats⟩

/-- C8 counterexample: pressing lane 0 at t = 10.19 s marks the note at
10.00 s hit (|diff| = 0.19, a belated MISS-on-press) although the unresolved
in-window note at 10.20 s is strictly closer (|diff| = 0.01): `handleInput`
uses `findIndex`, i.e. the first in-window note in chart order, not the note
of minimum |note.time − t|. -/
theorem nearest_note_counterexample :
    |closeNoteB.time - 1019/100| < |closeNoteA.time - 1019/100| ∧
    |closeNoteB.time - 1019/100| ≤ JUDGMENT_WINDOWS Judgment.MISS ∧
    closeNoteB.lane = 0 ∧ closeNoteB.hit = false ∧ closeNoteB.missed = false ∧
    (handleInput 0 (1019/100) closePair).notes[0]?.map Note.hit = some true ∧
    (handleInput 0 (1019/100) closePair).notes[1]?.map Note.hit = some false := by
  have hfi : closePair.notes.findIdx? (hitCandidate 0 (1019/100)) = some 0 := by
    norm_num [closePair, closeNoteA, closeNoteB, hitCandidate, ratAbs,
      JUDGMENT_WINDOWS, List.findIdx?]
  have heq := handleInput_eq_of_found (s := closePair) hfi rfl
  refine ⟨?_, ?_, rfl, rfl, rfl, ?_, ?_⟩
  · rw [← ratAbs_eq_abs, ← ratAbs_eq_abs]
    norm_num [closeNoteA, closeNoteB, ratAbs]
  · rw [← ratAbs_eq_abs]
    norm_num [closeNoteB, ratAbs, JUDGMENT_WINDOWS]
  · rw [heq]
    rfl
  · rw [heq]
    rfl

/-- C8 amended: the judged note is the first, in chart order, among the
pressed lane's unresolved notes within the 0.25 s miss window — not
necessarily the one of minimum |note.time − t| — and exactly that note is
marked hit; every earlier note fails the window predicate. -/
theorem press_selects_first_in_window (s : EngineState) (lane : Fin 4) (t : ℚ)
    (i : ℕ) (n : Note)
    (hi : s.notes.findIdx? (hitCandidate lane t) = some i)
    (hn : s.notes[i]? = some n) :
    (handleInput lane t s).notes = s.notes.set i { n with hit := true } ∧
    hitCandidate lane t n = true ∧
    (∀ j, j < i → ∀ m, s.notes[j]? = some m → hitCandidate lane t m = false) := by
  obtain ⟨hp, hprev⟩ := findIdx?_spec hi hn
  refine ⟨?_, hp, hprev⟩
  rw [handleInput_eq_of_found hi hn]

/-- C8 amended witness: in the two-note state the press at 10.19 s selects and
marks exactly the first note. -/
theorem press_selects_first_in_window_witness :
    (handleInput 0 (1019/100) closePair).notes
        = closePair.notes.set 0 { closeNoteA with hit := true } ∧
    hitCandidate 0 (1019/100) closeNoteA = true ∧
    (∀ j, j < 0 → ∀ m, closePair.notes[j]? = some m →
        hitCandidate 0 (1019/100) m = false) :=
  press_selects_first_in_window closePair 0 (1019/100) 0 closeNoteA
    (by norm_num [closePair, closeNoteA, closeNoteB, hitCandidate, ratAbs,
      JUDGMENT_WINDOWS, List.findIdx?])
    rfl

/-! ## Finish: accuracy, grade, silent track -/

/-- C9: the finish screen's accuracy is the rounded percentage
`round(score / (noteCount * 300) * 100)` with the zero-note case guarded to
the defined default 0 (no division error); the grade is S iff accuracy ≥ 95,
A iff 90 ≤ accuracy < 95, B iff 80 ≤ accuracy < 90, C iff 70 ≤ accuracy < 80,
D iff 60 ≤ accuracy < 70, else F; and a silent track (all samples 0) yields
an empty chart, so the playthrough finishes with score 0 and grade F. -/
theorem finish_accuracy_grade :
    (∀ score total : ℕ, total ≠ 0 →
      accuracy score total = round ((score : ℚ) / ((total : ℚ) * 300) * 100)) ∧
    (∀ score : ℕ, accuracy score 0 = 0) ∧
    (∀ acc : ℤ,
      (grade acc = "S" ↔ 95 ≤ acc) ∧
      (grade acc = "A" ↔ 90 ≤ acc ∧ acc < 95) ∧
      (grade acc = "B" ↔ 80 ≤ acc ∧ acc < 90) ∧
      (grade acc = "C" ↔ 70 ≤ acc ∧ acc < 80) ∧
      (grade acc = "D" ↔ 60 ≤ acc ∧ acc < 70) ∧
      (grade acc = "F" ↔ acc < 60)) ∧
    (∀ (samples : List ℝ) (rate : ℚ), (∀ x ∈ samples, x = 0) →
      analyzeAudio samples rate = []) ∧
    grade (accuracy zeroStats.score 0) = "F" := by
  refine ⟨fun score total h => by simp [accuracy, h],
    fun score => by simp [accuracy], ?_,
    fun samples rate h => analyzeAudio_silent samples rate h, by rfl⟩
  intro acc
  unfold grade
  split_ifs <;> refine ⟨?_, ?_, ?_, ?_, ?_, ?_⟩ <;> simp_all <;> omega

end RhythmFlow
